import Mathlib

/-
Verification of the YTDownloader repository (MyTube.py, Dialog.py).

Strings manipulated character-wise by the code are embedded as Lean
String or List Char; Python list indexing, which admits negative
indices and raises IndexError when out of range, is embedded as a
function into Option (none models the raised IndexError).
-/

namespace YTD

/-- Download qualities (class Quality in MyTube.py). -/
def Quality.Highest : String := "Highest"

/-- Download quality Medium (class Quality in MyTube.py). -/
def Quality.Medium : String := "Medium"

/-- Download quality Lowest (class Quality in MyTube.py). -/
def Quality.Lowest : String := "Lowest"

/-- Module-level constant QUALITIES of MyTube.py. -/
def QUALITIES : List String := [Quality.Highest, Quality.Medium, Quality.Lowest]

/-- Python list subscription xs[i]: a negative index i addresses
xs[len xs + i]; an index out of range raises IndexError, modelled as
none. -/
def pyGetItem {α : Type} (xs : List α) (i : Int) : Option α :=
  if 0 ≤ i then xs[i.toNat]?
  else if 0 ≤ i + xs.length then xs[(i + xs.length).toNat]?
  else none

/-- Embedding of MyTube.getResolution, with the YouTube object
abstracted by the list allResolutions(yt) it supplies: if the quality
is not one of the three named ones it is returned unchanged, otherwise
an index (0 for Highest, len//2 + len%2 for Medium, -1 for Lowest) is
computed and the list is subscripted with it. -/
def getResolution (allRes : List String) (quality : String) : Option String :=
  if quality ∉ QUALITIES then some quality
  else
    let index : Int :=
      if quality = Quality.Highest then 0
      else if quality = Quality.Medium then
        ((allRes.length / 2 + allRes.length % 2 : Nat) : Int)
      else -1
    pyGetItem allRes index

/-- Embedding of MyTube.getBitrate, with the YouTube object abstracted
by the list allBitrates(yt) it supplies; the body mirrors
getResolution on the bitrate list. -/
def getBitrate (allAbr : List String) (quality : String) : Option String :=
  if quality ∉ QUALITIES then some quality
  else
    let index : Int :=
      if quality = Quality.Highest then 0
      else if quality = Quality.Medium then
        ((allAbr.length / 2 + allAbr.length % 2 : Nat) : Int)
      else -1
    pyGetItem allAbr index

lemma medium_mem : ¬ (Quality.Medium ∉ QUALITIES) := by decide

lemma getResolution_medium (L : List String) :
    getResolution L Quality.Medium = pyGetItem L (L.length / 2 + L.length % 2 : Nat) := by
  simp only [getResolution, if_neg medium_mem]
  rw [if_neg (by decide : ¬ (Quality.Medium = Quality.Highest))]
  simp

lemma getBitrate_medium (L : List String) :
    getBitrate L Quality.Medium = pyGetItem L (L.length / 2 + L.length % 2 : Nat) := by
  simp only [getBitrate, if_neg medium_mem]
  rw [if_neg (by decide : ¬ (Quality.Medium = Quality.Highest))]
  simp

lemma pyGetItem_natCast {α : Type} (xs : List α) (k : Nat) :
    pyGetItem xs (k : Int) = xs[k]? := by
  simp [pyGetItem]

/-- Claim C1 counterexample: on the odd-length sorted quality list
["1080p", "720p", "480p"] the code resolves Medium to "480p", not to
the exact middle element L[n // 2] = L[1] = "720p" that the claim
states. -/
theorem medium_index_counterexample :
    getResolution ["1080p", "720p", "480p"] Quality.Medium = some "480p" ∧
    (["1080p", "720p", "480p"] : List String)[(3 : Nat) / 2]? = some "720p" ∧
    getResolution ["1080p", "720p", "480p"] Quality.Medium ≠
      (["1080p", "720p", "480p"] : List String)[(3 : Nat) / 2]? := by
  refine ⟨by decide, by decide, by decide⟩

/-- Claim C1 (amended): for every quality list L with at least two
elements, resolving the Medium named preference returns
L[n // 2 + n % 2] (the element one past the middle for odd n, the
upper-middle element for even n), and that index is in range; both
getResolution and getBitrate follow this rule. -/
theorem medium_resolves_upper_index (L : List String) (h : 2 ≤ L.length) :
    getResolution L Quality.Medium = L[L.length / 2 + L.length % 2]? ∧
    getBitrate L Quality.Medium = L[L.length / 2 + L.length % 2]? ∧
    L.length / 2 + L.length % 2 < L.length := by
  refine ⟨?_, ?_, by omega⟩
  · rw [getResolution_medium, pyGetItem_natCast]
  · rw [getBitrate_medium, pyGetItem_natCast]

/-- Witness for the amended claim C1 at the concrete even-length list
["1080p", "720p"]. -/
theorem medium_resolves_upper_index_witness :
    2 ≤ (["1080p", "720p"] : List String).length ∧
    (getResolution ["1080p", "720p"] Quality.Medium =
        (["1080p", "720p"] : List String)[(["1080p", "720p"] : List String).length / 2 +
          (["1080p", "720p"] : List String).length % 2]? ∧
      getBitrate ["1080p", "720p"] Quality.Medium =
        (["1080p", "720p"] : List String)[(["1080p", "720p"] : List String).length / 2 +
          (["1080p", "720p"] : List String).length % 2]? ∧
      (["1080p", "720p"] : List String).length / 2 +
          (["1080p", "720p"] : List String).length % 2 <
        (["1080p", "720p"] : List String).length) :=
  ⟨by decide, medium_resolves_upper_index ["1080p", "720p"] (by decide)⟩

/-- Claim C6: a preference string that is not one of the three named
levels is returned unchanged by both resolvers, whatever the quality
list contains. -/
theorem custom_quality_passthrough (q : String) (hq : q ∉ QUALITIES) (L : List String) :
    getResolution L q = some q ∧ getBitrate L q = some q := by
  constructor
  · simp only [getResolution, if_pos hq]
  · simp only [getBitrate, if_pos hq]

/-- Witness for claim C6 at the literal preference "480p" and a list
not containing it. -/
theorem custom_quality_passthrough_witness :
    ("480p" : String) ∉ QUALITIES ∧
    (getResolution ["720p"] "480p" = some "480p" ∧
      getBitrate ["720p"] "480p" = some "480p") :=
  ⟨by decide, custom_quality_passthrough "480p" (by decide) ["720p"]⟩

/-- Claim C10: on a quality list of length exactly one, resolving the
Medium named preference computes index 1 // 2 + 1 % 2 = 1, which is
past the end of the list, so the subscription raises IndexError
(modelled as none) even though the list is non-empty. -/
theorem medium_singleton_out_of_range (L : List String) (h : L.length = 1) :
    getResolution L Quality.Medium = none ∧
    getBitrate L Quality.Medium = none ∧
    L ≠ [] ∧
    L.length / 2 + L.length % 2 = 1 := by
  refine ⟨?_, ?_, ?_, by omega⟩
  · rw [getResolution_medium, pyGetItem_natCast]
    exact List.getElem?_eq_none (by omega)
  · rw [getBitrate_medium, pyGetItem_natCast]
    exact List.getElem?_eq_none (by omega)
  · intro hnil
    rw [hnil] at h
    exact absurd h (by decide)

/-- Witness for claim C10 at the singleton list ["720p"]. -/
theorem medium_singleton_out_of_range_witness :
    (["720p"] : List String).length = 1 ∧
    (getResolution ["720p"] Quality.Medium = none ∧
      getBitrate ["720p"] Quality.Medium = none ∧
      (["720p"] : List String) ≠ [] ∧
      (["720p"] : List String).length / 2 + (["720p"] : List String).length % 2 = 1) :=
  ⟨by decide, medium_singleton_out_of_range ["720p"] (by decide)⟩

/-- Environment of one downloadBoth run: whether each of the two
stream fetches completes without raising, and the exit status the
external ffmpeg process ends with. -/
structure MuxEnv where
  videoFetchOk : Bool
  audioFetchOk : Bool
  muxExitCode : Nat
deriving DecidableEq

/-- Embedding of os.remove on an abstract file system, a list of the
paths that exist. -/
def pyRemove (fs : List String) (p : String) : List String :=
  fs.filter (fun q => q ≠ p)

/-- Embedding of a downloadVideo or downloadAudio call inside
downloadBoth: on success the file appears at its path, on failure the
raised exception propagates (none) and no file appears. -/
def fetchStep (ok : Bool) (fs : List String) (p : String) : Option (List String) :=
  if ok then some (p :: fs) else none

/-- Embedding of MyTube.ffmpeg: os.system runs the merge command and
returns the process exit status; on a zero status the output file is
produced. os.system never raises on a non-zero status. -/
def ffmpegRun (exitCode : Nat) (fs : List String) (output : String) : List String × Nat :=
  (if exitCode = 0 then output :: fs else fs, exitCode)

/-- Embedding of MyTube.downloadBoth over the abstract file system:
fetch the video stream, fetch the audio stream, run ffmpeg (its exit
status is discarded, as the source discards the os.system result),
remove the two temporary files, return the output path. An exception
in either fetch propagates immediately (second component none) and
skips everything after it. -/
def downloadBoth (env : MuxEnv) (fs : List String) (vpath apath opath : String) :
    List String × Option String :=
  match fetchStep env.videoFetchOk fs vpath with
  | none => (fs, none)
  | some fs1 =>
    match fetchStep env.audioFetchOk fs1 apath with
    | none => (fs1, none)
    | some fs2 =>
      let muxed := ffmpegRun env.muxExitCode fs2 opath
      let fs4 := pyRemove muxed.1 vpath
      let fs5 := pyRemove fs4 apath
      (fs5, some opath)

/-- Claim C3 counterexample: when the audio fetch fails after the
video fetch succeeded, downloadBoth propagates the exception and the
temporary video file is left behind, so the temporaries are not
deleted unconditionally. -/
theorem mux_cleanup_counterexample :
    "v.mp4" ∈ (downloadBoth (MuxEnv.mk true false 0) [] "v.mp4" "a.mp4" "out.mkv").1 ∧
    (downloadBoth (MuxEnv.mk true false 0) [] "v.mp4" "a.mp4" "out.mkv").2 = none := by
  refine ⟨by decide, by decide⟩

/-- Claim C3 (amended): only once both stream fetches have completed
are the two temporary files unconditionally deleted, whatever exit
status the multiplexer ends with; a fetch failure skips the cleanup
and leaves already-fetched temporaries behind. -/
theorem mux_cleanup_after_fetches (env : MuxEnv) (fs : List String)
    (vpath apath opath : String)
    (hv : env.videoFetchOk = true) (ha : env.audioFetchOk = true) :
    vpath ∉ (downloadBoth env fs vpath apath opath).1 ∧
    apath ∉ (downloadBoth env fs vpath apath opath).1 := by
  simp only [downloadBoth, fetchStep, hv, ha, if_true, pyRemove]
  constructor
  · intro hmem
    have := (List.mem_filter.mp ((List.mem_filter.mp hmem).1)).2
    simp at this
  · intro hmem
    have := (List.mem_filter.mp hmem).2
    simp at this

/-- Witness for the amended claim C3 at a concrete environment whose
multiplexer exits with status 1. -/
theorem mux_cleanup_after_fetches_witness :
    (MuxEnv.mk true true 1).videoFetchOk = true ∧
    (MuxEnv.mk true true 1).audioFetchOk = true ∧
    ("v.mp4" ∉ (downloadBoth (MuxEnv.mk true true 1) [] "v.mp4" "a.mp4" "out.mkv").1 ∧
      "a.mp4" ∉ (downloadBoth (MuxEnv.mk true true 1) [] "v.mp4" "a.mp4" "out.mkv").1) :=
  ⟨rfl, rfl, mux_cleanup_after_fetches (MuxEnv.mk true true 1) [] "v.mp4" "a.mp4" "out.mkv" rfl rfl⟩

/-- Claim C4 counterexample: with the multiplexer exiting with the
non-zero status 1, downloadBoth still returns the output path as a
success; the exit status is discarded and no MuxError exists anywhere
in the source. -/
theorem mux_exit_status_counterexample :
    (MuxEnv.mk true true 1).muxExitCode ≠ 0 ∧
    (downloadBoth (MuxEnv.mk true true 1) [] "v2.mp4" "a2.mp4" "out2.mkv").2 =
      some "out2.mkv" := by
  refine ⟨by decide, by decide⟩

/-- Claim C4 (amended): downloadBoth ignores the multiplexer exit
status entirely: whenever both fetches complete, it returns the output
path as a success for every exit status, zero or not. -/
theorem mux_returns_output_regardless (env : MuxEnv) (fs : List String)
    (vpath apath opath : String)
    (hv : env.videoFetchOk = true) (ha : env.audioFetchOk = true) :
    (downloadBoth env fs vpath apath opath).2 = some opath := by
  simp only [downloadBoth, fetchStep, hv, ha, if_true]

/-- Witness for the amended claim C4 at a concrete environment whose
multiplexer exits with status 7. -/
theorem mux_returns_output_regardless_witness :
    (MuxEnv.mk true true 7).videoFetchOk = true ∧
    (MuxEnv.mk true true 7).audioFetchOk = true ∧
    (downloadBoth (MuxEnv.mk true true 7) [] "v3.mp4" "a3.mp4" "out3.mkv").2 =
      some "out3.mkv" :=
  ⟨rfl, rfl, mux_returns_output_regardless (MuxEnv.mk true true 7) [] "v3.mp4" "a3.mp4" "out3.mkv" rfl rfl⟩

/-- Abstraction of one playlist entry of self.pl.videos: the quality
lists its YouTube object supplies to the two resolvers. -/
structure PlVideo where
  resolutions : List String
  bitrates : List String
deriving DecidableEq

/-- Record of one loop iteration of PlaylistDialog.download: which
playlist position the video was taken from (yt = self.pl.videos[...]),
which list row supplied the title, and the two resolved qualities. -/
structure DownloadCall where
  videoIndex : Nat
  titleRow : Nat
  res : Option String
  abr : Option String
deriving DecidableEq

/-- Embedding of PlaylistDialog.getCheckedRows: the row numbers whose
check box is checked, produced by filtering range(count) in order.
The list checks holds the per-row check states. -/
def getCheckedRows (checks : List Bool) : List Nat :=
  (List.range checks.length).filter (fun i => checks.getD i false)

/-- Loop of PlaylistDialog.download over the remaining checked rows,
carrying the enumeration counter i. Each iteration takes the video at
playlist position i (the source subscripts self.pl.videos with the
enumeration counter, not with the row), resolves both preferences
against that video, and performs the download, whose outcome the
environment ok gives per iteration; a failing download raises, ending
the loop with failure. -/
def plDownloadAux (vids : Nat → PlVideo) (vidQ audQ : String) (ok : Nat → Bool) :
    List Nat → Nat → List DownloadCall × Bool
  | [], _ => ([], true)
  | row :: rest, i =>
    let v := vids i
    let call : DownloadCall :=
      ⟨i, row, getResolution v.resolutions vidQ, getBitrate v.bitrates audQ⟩
    if ok i then
      let r := plDownloadAux vids vidQ audQ ok rest (i + 1)
      (call :: r.1, r.2)
    else ([call], false)

/-- Embedding of PlaylistDialog.download: iterate the checked rows
with enumeration starting at 0, returning the download calls made and
whether the whole batch completed. -/
def plDownload (vids : Nat → PlVideo) (vidQ audQ : String) (ok : Nat → Bool)
    (checks : List Bool) : List DownloadCall × Bool :=
  plDownloadAux vids vidQ audQ ok (getCheckedRows checks) 0

lemma getCheckedRows_sorted (checks : List Bool) :
    (getCheckedRows checks).Pairwise (· < ·) :=
  List.Pairwise.sublist (List.filter_sublist _) (List.pairwise_lt_range _)

lemma plDownloadAux_fail (vids : Nat → PlVideo) (vidQ audQ : String) (ok : Nat → Bool) :
    ∀ (xs : List Nat) (i r : Nat) (ys : List Nat),
      (∀ j, j < xs.length → ok (i + j) = true) → ok (i + xs.length) = false →
      (plDownloadAux vids vidQ audQ ok (xs ++ r :: ys) i).2 = false ∧
      (plDownloadAux vids vidQ audQ ok (xs ++ r :: ys) i).1.map (fun c => c.titleRow) =
        xs ++ [r]
  | [], i, r, ys, _, hfail => by
    have hi : ok i = false := by simpa using hfail
    simp [plDownloadAux, hi]
  | x :: xs, i, r, ys, hok, hfail => by
    have hi : ok i = true := by simpa using hok 0 (Nat.succ_pos _)
    have hok2 : ∀ j, j < xs.length → ok (i + 1 + j) = true := by
      intro j hj
      have e : i + 1 + j = i + (j + 1) := by omega
      rw [e]
      exact hok (j + 1) (by simpa using Nat.succ_lt_succ hj)
    have hfail2 : ok (i + 1 + xs.length) = false := by
      have e : i + 1 + xs.length = i + (x :: xs).length := by simp; omega
      rw [e]
      exact hfail
    have ih := plDownloadAux_fail vids vidQ audQ ok xs (i + 1) r ys hok2 hfail2
    simp only [List.cons_append, plDownloadAux, hi, if_true]
    exact ⟨ih.1, by simp [ih.2]⟩

/-- Claim C5: if the checked rows split as xs ++ r :: ys, all
downloads before position |xs| succeed and the download at position
|xs| fails, then the batch stops right there: only the rows xs ++ [r]
are ever attempted (the rows ys are never touched) and the batch ends
in failure, the exception propagating instead of the completion
signal. -/
theorem batch_aborts_on_failure (vids : Nat → PlVideo) (vidQ audQ : String)
    (ok : Nat → Bool) (checks : List Bool) (xs : List Nat) (r : Nat) (ys : List Nat)
    (hrows : getCheckedRows checks = xs ++ r :: ys)
    (hok : ∀ j, j < xs.length → ok j = true)
    (hfail : ok xs.length = false) :
    (plDownload vids vidQ audQ ok checks).2 = false ∧
    (plDownload vids vidQ audQ ok checks).1.map (fun c => c.titleRow) = xs ++ [r] := by
  unfold plDownload
  rw [hrows]
  exact plDownloadAux_fail vids vidQ audQ ok xs 0 r ys
    (fun j hj => by simpa using hok j hj) (by simpa using hfail)

/-- Witness for claim C5: two checked rows, the very first download
fails, so only row 0 is attempted and the batch fails. -/
theorem batch_aborts_on_failure_witness :
    getCheckedRows [true, true] = [] ++ 0 :: [1] ∧
    ((plDownload (fun _ => ⟨["720p"], ["128kbps"]⟩) Quality.Highest Quality.Highest
        (fun _ => false) [true, true]).2 = false ∧
      (plDownload (fun _ => ⟨["720p"], ["128kbps"]⟩) Quality.Highest Quality.Highest
          (fun _ => false) [true, true]).1.map (fun c => c.titleRow) = [] ++ [0]) :=
  ⟨by decide,
    batch_aborts_on_failure (fun _ => ⟨["720p"], ["128kbps"]⟩) Quality.Highest
      Quality.Highest (fun _ => false) [true, true] [] 0 [1] (by decide)
      (fun j hj => absurd hj (Nat.not_lt_zero j)) rfl⟩

/-- Heterogeneous playlist used to exhibit the batch indexing bug:
video 0 only offers 360p / 48kbps, every later video 1080p /
160kbps. -/
def vidsDemo : Nat → PlVideo := fun i =>
  if i = 0 then ⟨["360p"], ["48kbps"]⟩ else ⟨["1080p"], ["160kbps"]⟩

/-- Claim C2, evaluated at the failing input: checked rows are always
visited in ascending order, but with only row 1 checked the single
iteration subscripts self.pl.videos with the enumeration counter 0,
downloading playlist video 0 and resolving the preferences against
video 0's qualities (360p) instead of the selected video 1 (1080p):
the video indices downloaded differ from the checked rows. -/
theorem playlist_batch_misindexes_videos :
    (∀ checks : List Bool, (getCheckedRows checks).Pairwise (· < ·)) ∧
    getCheckedRows [false, true] = [1] ∧
    (plDownload vidsDemo Quality.Highest Quality.Highest (fun _ => true)
        [false, true]).1 = [⟨0, 1, some "360p", some "48kbps"⟩] ∧
    (plDownload vidsDemo Quality.Highest Quality.Highest (fun _ => true)
        [false, true]).1.map (fun c => c.videoIndex) ≠ getCheckedRows [false, true] :=
  ⟨getCheckedRows_sorted, by decide, by decide, by decide⟩

/-- Python slice s[:-k]: everything but the last k characters. -/
def pyDropLast (cs : List Char) (k : Nat) : List Char :=
  cs.take (cs.length - k)

/-- Python int() applied to a quality label remainder: parses a
non-empty all-digit string as a decimal number and raises ValueError
(modelled as none) otherwise. -/
def parseNatChars (cs : List Char) : Option Nat :=
  if cs ≠ [] ∧ cs.all Char.isDigit = true then
    some (cs.foldl (fun acc c => acc * 10 + (c.toNat - 48)) 0)
  else none

/-- Sort key of allResolutions: int(res[:-1]), the label with the
trailing unit character removed, parsed as an integer. -/
def stripRes (s : String) : Option Nat := parseNatChars (pyDropLast s.toList 1)

/-- Sort key of allBitrates: int(abr[:-4]), the label with the
trailing four-character unit removed, parsed as an integer. -/
def stripAbr (s : String) : Option Nat := parseNatChars (pyDropLast s.toList 4)

/-- Descending comparison of resolution labels by their integer sort
key, the order sorted(..., reverse=True) arranges allResolutions
in. -/
def resDescend (a b : String) : Prop :=
  (stripRes b).getD 0 ≤ (stripRes a).getD 0

/-- Descending comparison of bitrate labels by their integer sort
key. -/
def abrDescend (a b : String) : Prop :=
  (stripAbr b).getD 0 ≤ (stripAbr a).getD 0

instance : DecidableRel resDescend := fun _ _ => Nat.decLe _ _

instance : DecidableRel abrDescend := fun _ _ => Nat.decLe _ _

instance : IsTotal String resDescend := ⟨fun _ _ => Nat.le_total _ _⟩

instance : IsTotal String abrDescend := ⟨fun _ _ => Nat.le_total _ _⟩

instance : IsTrans String resDescend := ⟨fun _ _ _ h1 h2 => Nat.le_trans h2 h1⟩

instance : IsTrans String abrDescend := ⟨fun _ _ _ h1 h2 => Nat.le_trans h2 h1⟩

/-- Embedding of MyTube.allResolutions with the YouTube object
abstracted by the resolution labels of its video streams: the set
comprehension collapses duplicates, then the distinct labels are
sorted by int(res[:-1]) in reverse. A label whose key does not parse
would make Python's int raise during sorting, modelled as none. -/
def allResolutions (labels : List String) : Option (List String) :=
  let distinct := labels.dedup
  if distinct.all (fun s => (stripRes s).isSome) then
    some (distinct.insertionSort resDescend)
  else none

/-- Embedding of MyTube.allBitrates with the YouTube object abstracted
by the bitrate labels of its audio streams; mirrors allResolutions
with the key int(abr[:-4]). -/
def allBitrates (labels : List String) : Option (List String) :=
  let distinct := labels.dedup
  if distinct.all (fun s => (stripAbr s).isSome) then
    some (distinct.insertionSort abrDescend)
  else none

/-- Claim C7: on any collection of labels whose keys parse, the stream
selector returns exactly the distinct labels (a permutation of the
deduplicated input, without duplicates) arranged in descending order
of the integer obtained by stripping the unit suffix, for resolutions
and bitrates alike. -/
theorem quality_sort_spec (labels labels2 : List String)
    (h : ∀ s ∈ labels, (stripRes s).isSome = true)
    (h2 : ∀ s ∈ labels2, (stripAbr s).isSome = true) :
    (allResolutions labels = some (labels.dedup.insertionSort resDescend) ∧
      labels.dedup.Perm (labels.dedup.insertionSort resDescend) ∧
      List.Sorted resDescend (labels.dedup.insertionSort resDescend) ∧
      (labels.dedup.insertionSort resDescend).Nodup) ∧
    (allBitrates labels2 = some (labels2.dedup.insertionSort abrDescend) ∧
      labels2.dedup.Perm (labels2.dedup.insertionSort abrDescend) ∧
      List.Sorted abrDescend (labels2.dedup.insertionSort abrDescend) ∧
      (labels2.dedup.insertionSort abrDescend).Nodup) := by
  have hall : labels.dedup.all (fun s => (stripRes s).isSome) = true := by
    rw [List.all_eq_true]
    intro s hs
    exact h s (List.mem_dedup.mp hs)
  have hall2 : labels2.dedup.all (fun s => (stripAbr s).isSome) = true := by
    rw [List.all_eq_true]
    intro s hs
    exact h2 s (List.mem_dedup.mp hs)
  refine ⟨⟨?_, ?_, ?_, ?_⟩, ⟨?_, ?_, ?_, ?_⟩⟩
  · simp only [allResolutions, hall, if_true]
  · exact (List.perm_insertionSort resDescend labels.dedup).symm
  · exact List.sorted_insertionSort resDescend labels.dedup
  · exact (List.perm_insertionSort resDescend labels.dedup).symm.nodup
      (List.nodup_dedup labels)
  · simp only [allBitrates, hall2, if_true]
  · exact (List.perm_insertionSort abrDescend labels2.dedup).symm
  · exact List.sorted_insertionSort abrDescend labels2.dedup
  · exact (List.perm_insertionSort abrDescend labels2.dedup).symm.nodup
      (List.nodup_dedup labels2)

/-- Witness for claim C7 at the two concrete label collections named
by the specification scenario. -/
theorem quality_sort_spec_witness :
    allResolutions ["480p", "1080p", "720p"] = some ["1080p", "720p", "480p"] ∧
    allBitrates ["128kbps", "320kbps"] = some ["320kbps", "128kbps"] :=
  ⟨((quality_sort_spec ["480p", "1080p", "720p"] ["128kbps", "320kbps"]
      (by decide) (by decide)).1.1).trans (by decide),
    ((quality_sort_spec ["480p", "1080p", "720p"] ["128kbps", "320kbps"]
      (by decide) (by decide)).2.1).trans (by decide)⟩

/-- Tests whether the pattern is an initial segment of the text,
character by character. -/
def startsWithChars : List Char → List Char → Bool
  | [], _ => true
  | _ :: _, [] => false
  | p :: ps, c :: cs => if p = c then startsWithChars ps cs else false

/-- Index of the first occurrence of the pattern in the text: the
shared search of Python's in operator and str.index, which scans
positions left to right. none models the absent occurrence (in
returning False, index raising ValueError). -/
def findSub (pat : List Char) : List Char → Option Nat
  | [] => if startsWithChars pat [] then some 0 else none
  | c :: rest =>
    if startsWithChars pat (c :: rest) then some 0
    else (findSub pat rest).map (fun n => n + 1)

/-- Search pattern "list" of isVideoInPlaylist and
extractPlaylistUrl. -/
def LIST_PAT : List Char := ("list").toList

/-- Canonical playlist URL prefix built by extractPlaylistUrl. -/
def PLAYLIST_HEADER : List Char := ("https://www.youtube.com/playlist?").toList

/-- Embedding of MyTube.isVideoInPlaylist: whether "list" occurs in
the URL. -/
def isVideoInPlaylist (url : List Char) : Bool :=
  (findSub LIST_PAT url).isSome

/-- Embedding of MyTube.extractPlaylistUrl: when "list" occurs, the
slice url[url.index("list"):] is appended to the canonical playlist
prefix; otherwise the URL is returned unchanged. -/
def extractPlaylistUrl (url : List Char) : List Char :=
  match findSub LIST_PAT url with
  | some i => PLAYLIST_HEADER ++ url.drop i
  | none => url

lemma startsWithChars_iff (pat : List Char) :
    ∀ l : List Char, startsWithChars pat l = true ↔ ∃ t, pat ++ t = l := by
  induction pat with
  | nil =>
    intro l
    simp [startsWithChars]
  | cons p ps ih =>
    intro l
    cases l with
    | nil =>
      simp only [startsWithChars]
      constructor
      · intro hf
        exact absurd hf (by decide)
      · rintro ⟨t, ht⟩
        exact absurd ht (by simp)
    | cons c cs =>
      simp only [startsWithChars]
      by_cases hpc : p = c
      · subst hpc
        rw [if_pos rfl, ih cs]
        constructor
        · rintro ⟨t, ht⟩
          exact ⟨t, by simp [ht]⟩
        · rintro ⟨t, ht⟩
          refine ⟨t, ?_⟩
          simpa using ht
      · rw [if_neg hpc]
        constructor
        · intro hf
          exact absurd hf (by decide)
        · rintro ⟨t, ht⟩
          apply absurd ht
          simp only [List.cons_append, List.cons.injEq]
          intro hh
          exact hpc hh.1

lemma findSub_none (pat : List Char) :
    ∀ l : List Char, findSub pat l = none → ∀ a b, l ≠ a ++ pat ++ b := by
  intro l
  induction l with
  | nil =>
    intro h a b heq
    have hs : startsWithChars pat [] = false := by
      by_cases hsw : startsWithChars pat [] = true
      · rw [findSub, if_pos hsw] at h
        exact absurd h (by simp)
      · simpa using hsw
    have : pat = [] ∧ a = [] ∧ b = [] := by
      constructor
      · cases pat with
        | nil => rfl
        | cons x xs =>
          have := List.append_eq_nil.mp heq.symm
          have := List.append_eq_nil.mp this.1
          exact absurd this.2 (by simp)
      · constructor
        · have := List.append_eq_nil.mp heq.symm
          exact (List.append_eq_nil.mp this.1).1
        · exact (List.append_eq_nil.mp heq.symm).2
    rw [this.1] at hs
    rw [startsWithChars] at hs
    exact absurd hs (by decide)
  | cons c rest ih =>
    intro h a b heq
    have hguard : startsWithChars pat (c :: rest) = false := by
      by_cases hsw : startsWithChars pat (c :: rest) = true
      · rw [findSub, if_pos hsw] at h
        exact absurd h (by simp)
      · simpa using hsw
    have hrest : findSub pat rest = none := by
      rw [findSub, if_neg (by simp [hguard])] at h
      cases hfs : findSub pat rest with
      | none => rfl
      | some j =>
        rw [hfs] at h
        exact absurd h (by simp)
    cases a with
    | nil =>
      have : startsWithChars pat (c :: rest) = true :=
        (startsWithChars_iff pat (c :: rest)).mpr ⟨b, by simpa using heq.symm⟩
      rw [this] at hguard
      exact absurd hguard (by decide)
    | cons x a2 =>
      have hx : c = x ∧ rest = a2 ++ pat ++ b := by
        have := heq
        simp only [List.cons_append, List.cons.injEq, List.append_assoc] at this
        constructor
        · exact this.1
        · simpa [List.append_assoc] using this.2
      exact ih hrest a2 b hx.2

lemma findSub_some (pat : List Char) :
    ∀ (l : List Char) (i : Nat), findSub pat l = some i →
      (∃ b, l.drop i = pat ++ b ∧ l = l.take i ++ pat ++ b) ∧
      (∀ a b, l = a ++ pat ++ b → i ≤ a.length) := by
  intro l
  induction l with
  | nil =>
    intro i h
    have hsw : startsWithChars pat [] = true := by
      by_cases hsw : startsWithChars pat [] = true
      · exact hsw
      · rw [findSub, if_neg (by simpa using hsw)] at h
        exact absurd h (by simp)
    have hi : i = 0 := by
      rw [findSub, if_pos hsw] at h
      exact (Option.some.injEq _ _ ▸ h.symm).symm ▸ rfl
    obtain ⟨t, ht⟩ := (startsWithChars_iff pat []).mp hsw
    subst hi
    refine ⟨⟨t, by simpa using ht.symm, by simpa using ht.symm⟩, ?_⟩
    intro a b _
    exact Nat.zero_le _
  | cons c rest ih =>
    intro i h
    by_cases hsw : startsWithChars pat (c :: rest) = true
    · have hi : i = 0 := by
        rw [findSub, if_pos hsw] at h
        simpa using h.symm
      obtain ⟨t, ht⟩ := (startsWithChars_iff pat (c :: rest)).mp hsw
      subst hi
      refine ⟨⟨t, by simpa using ht.symm, by simpa using ht.symm⟩, ?_⟩
      intro a b _
      exact Nat.zero_le _
    · have hguard : startsWithChars pat (c :: rest) = false := by simpa using hsw
      rw [findSub, if_neg (by simp [hguard])] at h
      cases hfs : findSub pat rest with
      | none =>
        rw [hfs] at h
        exact absurd h (by simp)
      | some j =>
        rw [hfs] at h
        have hij : i = j + 1 := by simpa using h.symm
        obtain ⟨⟨b, hdrop, hdecomp⟩, hmin⟩ := ih j hfs
        subst hij
        refine ⟨⟨b, ?_, ?_⟩, ?_⟩
        · simpa using hdrop
        · calc c :: rest = c :: (rest.take j ++ pat ++ b) := by rw [← hdecomp]
            _ = (c :: rest).take (j + 1) ++ pat ++ b := by simp
        · intro a b2 heq
          cases a with
          | nil =>
            have : startsWithChars pat (c :: rest) = true :=
              (startsWithChars_iff pat (c :: rest)).mpr ⟨b2, by simpa using heq.symm⟩
            rw [this] at hguard
            exact absurd hguard (by decide)
          | cons x a2 =>
            have hx : rest = a2 ++ pat ++ b2 := by
              simp only [List.cons_append, List.cons.injEq, List.append_assoc] at heq
              simpa [List.append_assoc] using heq.2
            have := hmin a2 b2 hx
            simp only [List.length_cons]
            omega

/-- Claim C8: for every URL, either "list" does not occur in it and
extractPlaylistUrl returns it unchanged, or the URL decomposes around
the first occurrence of "list" (no decomposition puts "list" earlier)
and extractPlaylistUrl returns the canonical playlist prefix followed
by the slice of the URL from that occurrence to the end. -/
theorem extractPlaylistUrl_spec (url : List Char) :
    ((∀ a b, url ≠ a ++ LIST_PAT ++ b) ∧ extractPlaylistUrl url = url) ∨
    (∃ a b, url = a ++ LIST_PAT ++ b ∧
      (∀ a2 b2, url = a2 ++ LIST_PAT ++ b2 → a.length ≤ a2.length) ∧
      extractPlaylistUrl url = PLAYLIST_HEADER ++ LIST_PAT ++ b) := by
  cases hfs : findSub LIST_PAT url with
  | none =>
    left
    refine ⟨findSub_none LIST_PAT url hfs, ?_⟩
    rw [extractPlaylistUrl, hfs]
  | some i =>
    obtain ⟨⟨b, hdrop, hdecomp⟩, hmin⟩ := findSub_some LIST_PAT url i hfs
    right
    refine ⟨url.take i, b, by simpa [List.append_assoc] using hdecomp, ?_, ?_⟩
    · intro a2 b2 h2
      have := hmin a2 b2 (by simpa [List.append_assoc] using h2)
      calc (url.take i).length ≤ i := by simp
        _ ≤ a2.length := this
    · rw [extractPlaylistUrl, hfs]
      simp only [hdrop, List.append_assoc]

/-- Python title.replace(char, under) for a single-character pattern:
every occurrence of the character is replaced. -/
def pyReplaceChar (s : List Char) (old new : Char) : List Char :=
  s.map (fun c => if c = old then new else c)

/-- Default illegal characters of MyTube.filterTitle. -/
def ILLEGALS : List Char := ("<>:\"/\\|?*").toList

/-- Loop of MyTube.filterTitle: for each illegal character in turn,
rebind title to title.replace(char, underscore). -/
def filterTitleWith (illegals title : List Char) : List Char :=
  illegals.foldl (fun t c => pyReplaceChar t c '_') title

/-- Embedding of MyTube.filterTitle at its default illegals
argument, the form every caller uses. -/
def filterTitle (title : List Char) : List Char :=
  filterTitleWith ILLEGALS title

lemma filterTitleWith_eq_map (il : List Char) :
    ∀ s : List Char,
      filterTitleWith il s = s.map (fun c => if c ∈ il then '_' else c) := by
  induction il with
  | nil =>
    intro s
    simp [filterTitleWith]
  | cons c cs ih =>
    intro s
    have step : filterTitleWith (c :: cs) s = filterTitleWith cs (pyReplaceChar s c '_') :=
      rfl
    rw [step, ih, pyReplaceChar, List.map_map]
    apply List.map_congr_left
    intro x _
    by_cases hx : x = c
    · subst hx
      simp [ite_self]
    · simp [hx]

/-- Claim C9: the title sanitizer is idempotent; applying filterTitle
twice gives the same string as applying it once. -/
theorem filterTitle_idempotent (s : List Char) :
    filterTitle (filterTitle s) = filterTitle s := by
  simp only [filterTitle, filterTitleWith_eq_map, List.map_map]
  apply List.map_congr_left
  intro x _
  by_cases hx : x ∈ ILLEGALS
  · simp [hx, ite_self]
  · simp [hx]

end YTD
